import Mathlib

/-!
Verification of the replace-it template renderer (src/src/index.ts) against its
natural-language specification.

The source is shallowly embedded: template text is a list of characters, the
dynamic values flowing through scopes are a JSON-like inductive type, JS object
spread is modelled as an association-list merge, and the three built-in regex
passes of processTemplate are modelled by faithful non-greedy scanners over the
character list.  The host-language expression evaluation performed by
new Function in evaluateExpression is an oracle parameter (JsEval below); the
try/catch around it is part of the embedding.  Recursion of processTemplate is
made total with an explicit fuel argument; fuel exhaustion returns the text
unchanged and all statements below either quantify over the fuel shape or use
concrete sufficient fuel.
-/

set_option maxRecDepth 10000

/-- Template and value text: a JS string as a list of characters. -/
abbrev Str := List Char

/-- Shorthand to write character-list literals. -/
def str (s : String) : Str := s.toList

/-- A JS runtime value as far as the renderer observes it: undefined, null,
booleans, (non-NaN) numbers, NaN, strings, arrays, plain objects, and an
opaque handle for callables (the built-in helpers are callables whose bodies
are outside the verified core). -/
inductive Value where
  | vUndefined : Value
  | vNull : Value
  | vBool : Bool → Value
  | vNum : Int → Value
  | vNaN : Value
  | vStr : Str → Value
  | vArr : List Value → Value
  | vObj : List (Str × Value) → Value
  | vClosure : Nat → Value

/-- A JS object as the renderer uses one: an association list from property
name to value; lookup takes the first matching entry. -/
abbrev Obj := List (Str × Value)

/-- First-match property lookup in an object. -/
def lookupObj : Obj → Str → Option Value
  | [], _ => none
  | (k', v) :: rest, k => if k' = k then some v else lookupObj rest k

/-- Whether an object has an entry for a key. -/
def containsKey : Obj → Str → Bool
  | [], _ => false
  | (k', _) :: rest, k => k' = k || containsKey rest k

/-- Entries of an object whose keys are not bound in another object. -/
def dropKeysIn (b : Obj) : Obj → Obj
  | [] => []
  | (k, v) :: rest => if containsKey b k then dropKeysIn b rest else (k, v) :: dropKeysIn b rest

/-- JS object spread: mergeObj a b models the object literal spreading a then
b, so entries of b win on a key collision. -/
def mergeObj (a b : Obj) : Obj :=
  dropKeysIn b a ++ b

/-- The whitespace characters trimmed by String.prototype.trim (the common
ones; the renderer only ever trims spaces around expressions and paths). -/
def isWs (c : Char) : Bool := c = ' ' || c = '\t' || c = '\n' || c = '\r'

/-- String.prototype.trim. -/
def trimStr (s : Str) : Str := ((s.dropWhile isWs).reverse.dropWhile isWs).reverse

/-- String.prototype.split on a single-character separator; "".split gives
one empty field, like JS. -/
def splitOnChar (sep : Char) : Str → List Str
  | [] => [[]]
  | c :: cs =>
    if c = sep then [] :: splitOnChar sep cs
    else
      match splitOnChar sep cs with
      | [] => [[c]]
      | h :: t => (c :: h) :: t

/-- Digits of a decimal numeral to a natural number. -/
def digitsToNat (s : Str) : Nat := s.foldl (fun n c => n * 10 + (c.toNat - 48)) 0

/-- A canonical array index, as JS indexed access interprets property names. -/
def parseIndex : Str → Option Nat
  | [] => none
  | ['0'] => some 0
  | c :: cs =>
    if (c :: cs).all Char.isDigit && c != '0' then some (digitsToNat (c :: cs)) else none

/-- One JS property access v[part] on a non-nullish value: object fields,
array/string indices and length; anything else yields undefined. -/
def getProp : Value → Str → Value
  | .vObj fs, k =>
    match lookupObj fs k with
    | some v => v
    | none => .vUndefined
  | .vArr xs, k =>
    if k = str "length" then .vNum xs.length
    else
      match parseIndex k with
      | some i =>
        match xs.get? i with
        | some v => v
        | none => .vUndefined
      | none => .vUndefined
  | .vStr s, k =>
    if k = str "length" then .vNum s.length
    else
      match parseIndex k with
      | some i =>
        match s.get? i with
        | some c => .vStr [c]
        | none => .vUndefined
      | none => .vUndefined
  | _, _ => .vUndefined

/-- Optional-chained access acc?.[part]: nullish short-circuits to undefined. -/
def optChainGet (acc : Value) (part : Str) : Value :=
  match acc with
  | .vNull => .vUndefined
  | .vUndefined => .vUndefined
  | v => getProp v part

/-- getValueByPath from the source: split the path on dots and reduce with
optional-chained access. -/
def getValueByPath (obj : Value) (path : Str) : Value :=
  (splitOnChar '.' path).foldl optChainGet obj

mutual

/-- JS String() coercion of a value, as the replace callback return value is
coerced in the raw-expression pass. -/
def toText : Value → Str
  | .vUndefined => str "undefined"
  | .vNull => str "null"
  | .vBool true => str "true"
  | .vBool false => str "false"
  | .vNum n => (toString n).toList
  | .vNaN => str "NaN"
  | .vStr s => s
  | .vArr xs => toTextArr xs
  | .vObj _ => str "[object Object]"
  | .vClosure _ => str "function"

/-- Array.prototype.join with comma: nullish elements become empty text. -/
def toTextArr : List Value → Str
  | [] => []
  | [.vNull] => []
  | [.vUndefined] => []
  | [v] => toText v
  | .vNull :: w :: rest => ',' :: toTextArr (w :: rest)
  | .vUndefined :: w :: rest => ',' :: toTextArr (w :: rest)
  | v :: w :: rest => toText v ++ ',' :: toTextArr (w :: rest)

end

/-- JS truthiness of a value. -/
def truthy : Value → Bool
  | .vUndefined => false
  | .vNull => false
  | .vBool b => b
  | .vNum n => n != 0
  | .vNaN => false
  | .vStr s => !s.isEmpty
  | .vArr _ => true
  | .vObj _ => true
  | .vClosure _ => true

/-- JS object spread of an arbitrary value into an object literal: objects
contribute their fields, arrays and strings their indexed elements, and
primitives contribute nothing. -/
def spreadVal : Value → Obj
  | .vObj fs => fs
  | .vArr xs => (xs.enum.map fun p => ((toString p.1).toList, p.2))
  | .vStr s => (s.enum.map fun p => ((toString p.1).toList, Value.vStr [p.2]))
  | _ => []

/-- The host-language expression oracle: what new Function(keys, body)(values)
does for one expression over one flat binding set, either producing a value or
raising (syntax error, reference error, helper exception, ...). -/
abbrev JsEval := Str → Obj → Except String Value

/-- evaluateExpression from the source: build the flat binding set by
spreading helpers then scope (scope wins), run the host evaluation, and
catch any failure as the empty string. -/
def evaluateExpression (jsEval : JsEval) (expression : Str) (scope : Obj) (helpers : Obj) : Value :=
  match jsEval expression (mergeObj helpers scope) with
  | .ok v => v
  | .error _ => .vStr []

/-- Decidable equality-based check that p is an initial segment of s. -/
def isPre : Str → Str → Bool
  | [], _ => true
  | _ :: _, [] => false
  | a :: as, b :: bs => a = b && isPre as bs

/-- Whether pat occurs as a contiguous segment of s (the empty pattern
occurs everywhere, as the empty regex matches everywhere). -/
def occursIn (pat : Str) : Str → Bool
  | [] => pat.isEmpty
  | c :: cs => isPre pat (c :: cs) || occursIn pat cs

/-- Split s at the first occurrence of pat: some (pre, post) with
s = pre ++ pat ++ post, none when pat does not occur. -/
def splitOnFirst (pat : Str) : Str → Option (Str × Str)
  | [] => if pat.isEmpty then some ([], []) else none
  | c :: cs =>
    if isPre pat (c :: cs) then some ([], (c :: cs).drop pat.length)
    else (splitOnFirst pat cs).map (fun pr => (c :: pr.1, pr.2))

/-- The if-block open tag of the source regex. -/
def ifOpen : Str := str "\x7b\x7b#if "

/-- The if-block close tag. -/
def ifClose : Str := str "\x7b\x7b/if\x7d\x7d"

/-- The each-block open tag. -/
def eachOpen : Str := str "\x7b\x7b#each "

/-- The each-block close tag. -/
def eachClose : Str := str "\x7b\x7b/each\x7d\x7d"

/-- The raw-expression open delimiter. -/
def exprOpen : Str := str "\x7b\x7b"

/-- The raw-expression close delimiter, also the head-group terminator of the
block regexes. -/
def exprClose : Str := str "\x7d\x7d"

/-- The else separator recognised inside an if block. -/
def elseTag : Str := str "\x7b\x7belse\x7d\x7d"

/-- The head-group scan of the block regexes after the open tag: the
non-greedy first group takes the shortest run of non-newline characters up to
a close-brace pair such that the close tag still occurs later; the non-greedy
second group then reaches the nearest close tag.  Backtracking past a
candidate brace pair lengthens the first group, exactly as the host regex
engine does. -/
def scanHead (closeTag : Str) : Str → Option (Str × Str × Str)
  | [] => none
  | c :: cs =>
    match (if isPre exprClose (c :: cs) then splitOnFirst closeTag (cs.drop 1) else none) with
    | some (inner, rest) => some ([], inner, rest)
    | none =>
      if c = '\n' then none
      else (scanHead closeTag cs).map (fun r => (c :: r.1, r.2))

/-- Try to match a whole block (open tag, head group, brace pair, body group,
close tag) at the start of s; on success returns the head text, the body text
and the remainder after the close tag. -/
def matchBlockAt (openTag closeTag : Str) (s : Str) : Option (Str × Str × Str) :=
  if isPre openTag s then scanHead closeTag (s.drop openTag.length) else none

/-- Leftmost block match: the text before the match, the head group, the body
group, and the remainder after the match. -/
def findBlock (openTag closeTag : Str) : Str → Option (Str × Str × Str × Str)
  | [] => none
  | c :: cs =>
    match matchBlockAt openTag closeTag (c :: cs) with
    | some (hd, inner, rest) => some ([], hd, inner, rest)
    | none => (findBlock openTag closeTag cs).map (fun r => (c :: r.1, r.2))

/-- Fuelled global scan for block matches, as one pass of
String.prototype.replace with a global block regex: each match is recorded
and the scan resumes after it. -/
def splitBlocksF (openTag closeTag : Str) : Nat → Str → List (Str × Str × Str) × Str
  | 0, s => ([], s)
  | fuel + 1, s =>
    match findBlock openTag closeTag s with
    | none => ([], s)
    | some (pre, hd, inner, rest) =>
      let p := splitBlocksF openTag closeTag fuel rest
      ((pre, hd, inner) :: p.1, p.2)

/-- All block matches of one replace pass, with the trailing text. -/
def splitBlocks (openTag closeTag : Str) (s : Str) : List (Str × Str × Str) × Str :=
  splitBlocksF openTag closeTag s.length s

/-- The non-greedy scan of one raw expression group after the open braces:
shortest run of non-newline characters up to a close-brace pair. -/
def scanExprBody : Str → Option (Str × Str)
  | [] => none
  | c :: cs =>
    if isPre exprClose (c :: cs) then some ([], cs.drop 1)
    else if c = '\n' then none
    else (scanExprBody cs).map (fun r => (c :: r.1, r.2))

/-- Try to match one raw expression occurrence at the start of s. -/
def matchRawAt (s : Str) : Option (Str × Str) :=
  if isPre exprOpen s then scanExprBody (s.drop 2) else none

/-- Leftmost raw-expression match. -/
def findRaw : Str → Option (Str × Str × Str)
  | [] => none
  | c :: cs =>
    match matchRawAt (c :: cs) with
    | some (e, rest) => some ([], e, rest)
    | none => (findRaw cs).map (fun r => (c :: r.1, r.2))

/-- Fuelled global scan for raw-expression matches. -/
def splitRawsF : Nat → Str → List (Str × Str) × Str
  | 0, s => ([], s)
  | fuel + 1, s =>
    match findRaw s with
    | none => ([], s)
    | some (pre, e, rest) =>
      let p := splitRawsF fuel rest
      ((pre, e) :: p.1, p.2)

/-- All raw-expression matches of one replace pass, with the trailing text. -/
def splitRaws (s : Str) : List (Str × Str) × Str :=
  splitRawsF s.length s

/-- inner.split on the else tag destructured to the first two fields with the
second defaulting to empty text: parts beyond the second are dropped. -/
def splitElse (inner : Str) : Str × Str :=
  match splitOnFirst elseTag inner with
  | none => (inner, [])
  | some (t, rest) =>
    match splitOnFirst elseTag rest with
    | none => (t, rest)
    | some (f, _) => (t, f)

/-- Concatenation of the replaced pieces of one replace pass. -/
def concatAll : List Str → Str
  | [] => []
  | x :: xs => x ++ concatAll xs

/-- Effectful map over a list in the exception monad of the embedding,
stopping at the first raised error. -/
def mapE (f : α → Except String β) : List α → Except String (List β)
  | [] => .ok []
  | a :: as =>
    match f a with
    | .error e => .error e
    | .ok b =>
      match mapE f as with
      | .error e => .error e
      | .ok bs => .ok (b :: bs)

/-- A caller-supplied syntax extension: a pattern and a resolver.  The source
pattern is a regex; the embedding restricts it to the literal-text regexes,
which is all the dispatch claims exercise.  The resolver is an arbitrary
caller function and may raise. -/
structure CustomHandler where
  pattern : Str
  handler : Str → Obj → Obj → Except String Str

/-- Fuelled global literal-pattern replace with an effectful replacement
function; an empty pattern replaces nothing.  Fuel equal to the text length
always suffices since every step consumes at least one character. -/
def replaceAllMF (pat : Str) (f : Str → Except String Str) : Nat → Str → Except String Str
  | 0, s => .ok s
  | _ + 1, [] => .ok []
  | fuel + 1, c :: cs =>
    if !pat.isEmpty && isPre pat (c :: cs) then
      match f pat with
      | .error e => .error e
      | .ok r =>
        match replaceAllMF pat f fuel ((c :: cs).drop pat.length) with
        | .error e => .error e
        | .ok rest => .ok (r ++ rest)
    else
      match replaceAllMF pat f fuel cs with
      | .error e => .error e
      | .ok rest => .ok (c :: rest)

/-- One global replace pass for one handler pattern. -/
def replaceAllM (pat : Str) (f : Str → Except String Str) (s : Str) : Except String Str :=
  replaceAllMF pat f s.length s

/-- Stage 3 of processTemplate: apply the caller handlers in registration
order, each as one global replace over the whole intermediate text, invoking
the resolver with the matched text, the current scope of this processTemplate
invocation, and the merged helper registry.  A raised resolver error is not
caught and propagates. -/
def runHandlers (handlers : List CustomHandler) (scope helpers : Obj) (s : Str) : Except String Str :=
  match handlers with
  | [] => .ok s
  | h :: hs =>
    match replaceAllM h.pattern (fun m => h.handler m scope helpers) s with
    | .error e => .error e
    | .ok s1 => runHandlers hs scope helpers s1

/-- The raw-expression substitution value: null and undefined coerce to empty
text (value ?? "" in the source), every other value to its String() form. -/
def coerceReplacement : Value → Str
  | .vNull => []
  | .vUndefined => []
  | v => toText v

/-- The replacement of one if-block match: split the body on the else tag,
evaluate the trimmed condition in the current scope, and recursively render
the selected branch with the same scope; the replacement is prepended with
the text before the match. -/
def ifSegment (jsEval : JsEval) (helpers : Obj) (render : Str → Obj → Except String Str)
    (scope : Obj) (seg : Str × Str × Str) : Except String Str :=
  match (if truthy (evaluateExpression jsEval (trimStr seg.2.1) scope helpers)
         then render (splitElse seg.2.2).1 scope else render (splitElse seg.2.2).2 scope) with
  | .error e => .error e
  | .ok out => .ok (seg.1 ++ out)

/-- Stage 1 of processTemplate: one global pass resolving if blocks. -/
def stageIf (jsEval : JsEval) (helpers : Obj) (render : Str → Obj → Except String Str)
    (scope : Obj) (s : Str) : Except String Str :=
  match mapE (ifSegment jsEval helpers render scope) (splitBlocks ifOpen ifClose s).1 with
  | .error e => .error e
  | .ok parts => .ok (concatAll parts ++ (splitBlocks ifOpen ifClose s).2)

/-- The replacement of one each-block match: the trimmed path is resolved
against the current scope; a non-array value replaces the block with empty
text, an array replaces it with the concatenation, in order and with no
separator, of one recursive rendering of the body per element against the
child scope spreading the element over the current scope; the replacement is
prepended with the text before the match. -/
def eachSegment (render : Str → Obj → Except String Str) (scope : Obj)
    (seg : Str × Str × Str) : Except String Str :=
  match getValueByPath (Value.vObj scope) (trimStr seg.2.1) with
  | .vArr xs =>
    (match mapE (fun item => render seg.2.2 (mergeObj scope (spreadVal item))) xs with
     | .error e => .error e
     | .ok outs => .ok (seg.1 ++ concatAll outs))
  | _ => .ok (seg.1 ++ [])

/-- Stage 2 of processTemplate: one global pass resolving each blocks. -/
def stageEach (render : Str → Obj → Except String Str) (scope : Obj) (s : Str) :
    Except String Str :=
  match mapE (eachSegment render scope) (splitBlocks eachOpen eachClose s).1 with
  | .error e => .error e
  | .ok parts => .ok (concatAll parts ++ (splitBlocks eachOpen eachClose s).2)

/-- The replacement of one raw-expression match, prepended with the text
before the match. -/
def rawSegment (jsEval : JsEval) (helpers : Obj) (scope : Obj) (seg : Str × Str) : Str :=
  seg.1 ++ coerceReplacement (evaluateExpression jsEval (trimStr seg.2) scope helpers)

/-- Stage 4 of processTemplate: substitute every remaining raw expression by
its evaluated, coerced text. -/
def stageRaw (jsEval : JsEval) (helpers : Obj) (scope : Obj) (s : Str) : Str :=
  concatAll ((splitRaws s).1.map (rawSegment jsEval helpers scope)) ++ (splitRaws s).2

/-- processTemplate from the source: the four rewrite stages in fixed order,
each on the output of the previous one, with the recursive calls of stages 1
and 2 re-entering the same pipeline.  The fuel argument only bounds the
recursion depth (absent in the source, whose recursion terminates on the
actual templates); exhausted fuel returns the text unchanged. -/
def processTemplate (jsEval : JsEval) (helpers : Obj) (handlers : List CustomHandler) :
    Nat → Str → Obj → Except String Str
  | 0, tmpl, _ => .ok tmpl
  | fuel + 1, tmpl, scope =>
    match stageIf jsEval helpers (processTemplate jsEval helpers handlers fuel) scope tmpl with
    | .error e => .error e
    | .ok s1 =>
      match stageEach (processTemplate jsEval helpers handlers fuel) scope s1 with
      | .error e => .error e
      | .ok s2 =>
        match runHandlers handlers scope helpers s2 with
        | .error e => .error e
        | .ok s3 => .ok (stageRaw jsEval helpers scope s3)

/-- The render request tuple, with the source defaults for helpers and
handlers. -/
structure RenderOptions where
  template : Str
  data : Obj
  helpers : Obj := []
  handlers : List CustomHandler := []

/-- The built-in helper registry: the currency and date formatters, registered
under their default names; their bodies are callables outside the verified
core, kept as opaque closure handles. -/
def defaultHelpers : Obj :=
  [(str "formatCurrency", Value.vClosure 0), (str "formatDate", Value.vClosure 1)]

/-- renderTemplate from the source: merge the built-in helpers with the
caller helpers (caller wins) and run the pipeline on the template with the
caller data as the top-level scope. -/
def renderTemplate (jsEval : JsEval) (options : RenderOptions) : Except String Str :=
  let mergedHelpers := mergeObj defaultHelpers options.helpers
  processTemplate jsEval mergedHelpers options.handlers
    (options.template.length + 1) options.template options.data

/-- A character allowed inside a host-language identifier. -/
def isIdentChar (c : Char) : Bool := c.isAlphanum || c = '_'

/-- Whether a text is a host-language identifier. -/
def isIdent : Str → Bool
  | [] => false
  | c :: cs => (c.isAlpha || c = '_') && (c :: cs).all isIdentChar

/-- Property-chain evaluation for the sample oracle: reading a property of a
nullish intermediate raises, as host property access does. -/
def chainGet : Value → List Str → Except String Value
  | v, [] => .ok v
  | .vNull, _ :: _ => .error "TypeError"
  | .vUndefined, _ :: _ => .error "TypeError"
  | v, seg :: rest => chainGet (getProp v seg) rest

/-- One concrete instance of the expression oracle, used to instantiate the
abstract JsEval in witnesses and counterexamples.  It covers the fragment
those concrete templates use — dotted identifier chains — the way the host
evaluator treats them: an unbound head identifier raises a reference error,
property access through a nullish intermediate raises a type error, and any
non-identifier text (such as the leftover directive fragments the raw pass
can pick up) raises a syntax error. -/
def sampleJsEval : JsEval := fun expr bindings =>
  let segs := splitOnChar '.' expr
  if segs.all isIdent then
    match segs with
    | [] => .error "SyntaxError"
    | s0 :: rest =>
      match lookupObj bindings s0 with
      | none => .error "ReferenceError"
      | some v => chainGet v rest
  else .error "SyntaxError"

/-- A template with no directive occurrence: no if-block match, no each-block
match, no raw-expression match, and no handler-pattern occurrence. -/
def directiveFree (handlers : List CustomHandler) (s : Str) : Prop :=
  findBlock ifOpen ifClose s = none ∧
  findBlock eachOpen eachClose s = none ∧
  findRaw s = none ∧
  ∀ h ∈ handlers, occursIn h.pattern s = false

theorem isPre_append_self : ∀ (a x : Str), isPre a (a ++ x) = true
  | [], _ => rfl
  | c :: cs, x => by simp [isPre, isPre_append_self cs x]

theorem isPre_length_le : ∀ {p s : Str}, isPre p s = true → p.length ≤ s.length
  | [], _, _ => Nat.zero_le _
  | _ :: _, [], h => by simp [isPre] at h
  | c :: cs, b :: bs, h => by
    simp only [isPre, Bool.and_eq_true] at h
    exact Nat.succ_le_succ (isPre_length_le h.2)

theorem isPre_of_append_left : ∀ {p m : Str} (n : Str),
    isPre p (m ++ n) = true → p.length ≤ m.length → isPre p m = true
  | [], _, _, _, _ => rfl
  | c :: cs, [], n, _, hl => by simp at hl
  | c :: cs, d :: ds, n, h, hl => by
    simp only [List.cons_append, isPre, Bool.and_eq_true] at h ⊢
    exact ⟨h.1, isPre_of_append_left n h.2 (Nat.le_of_succ_le_succ hl)⟩

theorem occursIn_of_isPre : ∀ {p s : Str}, isPre p s = true → occursIn p s = true
  | [], [], _ => rfl
  | _ :: _, [], h => by simp [isPre] at h
  | p, c :: cs, h => by simp [occursIn, h]

theorem drop_length_append : ∀ (a x : Str), (a ++ x).drop a.length = x
  | [], _ => rfl
  | c :: cs, x => drop_length_append cs x

theorem splitOnFirst_append_clean (pat : Str) (hne : pat ≠ []) :
    ∀ (body rest : Str), occursIn pat (body ++ pat.dropLast) = false →
      splitOnFirst pat (body ++ (pat ++ rest)) = some (body, rest)
  | [], rest, _ => by
    obtain ⟨c, cs, hp⟩ : ∃ c cs, pat = c :: cs := by
      cases pat with
      | nil => exact absurd rfl hne
      | cons c cs => exact ⟨c, cs, rfl⟩
    subst hp
    show splitOnFirst (c :: cs) (c :: (cs ++ rest)) = some ([], rest)
    have hpre : isPre (c :: cs) (c :: (cs ++ rest)) = true := isPre_append_self (c :: cs) rest
    simp only [splitOnFirst, hpre, if_true]
    have : (c :: (cs ++ rest)).drop (c :: cs).length = rest := drop_length_append (c :: cs) rest
    rw [this]
  | b :: bs, rest, hocc => by
    have hlast := List.dropLast_append_getLast hne
    have hocc' : occursIn pat (bs ++ pat.dropLast) = false := by
      simp only [List.cons_append, occursIn, Bool.or_eq_false_iff] at hocc
      exact hocc.2
    have hnotpre : isPre pat ((b :: bs) ++ (pat ++ rest)) = false := by
      by_contra hc
      have hc' : isPre pat ((b :: bs) ++ (pat ++ rest)) = true := by
        cases h : isPre pat ((b :: bs) ++ (pat ++ rest)) with
        | true => rfl
        | false => exact absurd h hc
      have hdecomp : (b :: bs) ++ (pat ++ rest) =
          ((b :: bs) ++ pat.dropLast) ++ ([pat.getLast hne] ++ rest) := by
        conv_lhs => rw [← hlast]
        simp [List.append_assoc]
      rw [hdecomp] at hc'
      have hlen : pat.length ≤ ((b :: bs) ++ pat.dropLast).length := by
        rw [List.length_append, List.length_dropLast]
        have hp1 : 1 ≤ pat.length := by
          cases pat with
          | nil => exact absurd rfl hne
          | cons _ _ => exact Nat.succ_le_succ (Nat.zero_le _)
        have : pat.length - 1 + 1 ≤ pat.length - 1 + (b :: bs).length := by
          exact Nat.add_le_add_left (by simp) _
        omega
      have := isPre_of_append_left _ hc' hlen
      have := occursIn_of_isPre this
      rw [this] at hocc
      exact Bool.noConfusion hocc
    show splitOnFirst pat (b :: (bs ++ (pat ++ rest))) = some (b :: bs, rest)
    have hstep : splitOnFirst pat (bs ++ (pat ++ rest)) = some (bs, rest) :=
      splitOnFirst_append_clean pat hne bs rest hocc'
    simp only [List.cons_append] at hnotpre
    simp [splitOnFirst, hnotpre, hstep]

theorem exprClose_eq : exprClose = ['\x7d', '\x7d'] := rfl

theorem exprOpen_eq : exprOpen = ['\x7b', '\x7b'] := rfl

theorem scanHead_append_clean (close : Str) (hclose : close ≠ []) :
    ∀ (hd body rest : Str), '\n' ∉ hd →
      occursIn exprClose (hd ++ exprClose.dropLast) = false →
      occursIn close (body ++ close.dropLast) = false →
      scanHead close (hd ++ (exprClose ++ (body ++ (close ++ rest)))) = some (hd, body, rest)
  | [], body, rest, _, _, hb => by
    show scanHead close ('\x7d' :: ('\x7d' :: (body ++ (close ++ rest)))) = some ([], body, rest)
    have hpre : isPre exprClose ('\x7d' :: ('\x7d' :: (body ++ (close ++ rest)))) = true := by
      have := isPre_append_self exprClose (body ++ (close ++ rest))
      rw [exprClose_eq] at this ⊢
      exact this
    have hsplit : splitOnFirst close (body ++ (close ++ rest)) = some (body, rest) :=
      splitOnFirst_append_clean close hclose body rest hb
    simp [scanHead, hpre, hsplit]
  | a :: as, body, rest, hn, hocc, hb => by
    have hnotpre : isPre exprClose ((a :: as) ++ (exprClose ++ (body ++ (close ++ rest)))) = false := by
      by_contra hc
      have hc' : isPre exprClose ((a :: as) ++ (exprClose ++ (body ++ (close ++ rest)))) = true := by
        cases h : isPre exprClose ((a :: as) ++ (exprClose ++ (body ++ (close ++ rest)))) with
        | true => rfl
        | false => exact absurd h hc
      have hdecomp : (a :: as) ++ (exprClose ++ (body ++ (close ++ rest))) =
          ((a :: as) ++ exprClose.dropLast) ++ ('\x7d' :: (body ++ (close ++ rest))) := by
        rw [exprClose_eq]
        simp
      rw [hdecomp] at hc'
      have hlen : exprClose.length ≤ ((a :: as) ++ exprClose.dropLast).length := by
        rw [exprClose_eq]
        simp
      have := occursIn_of_isPre (isPre_of_append_left _ hc' hlen)
      rw [this] at hocc
      exact Bool.noConfusion hocc
    have hn1 : a ≠ '\n' := fun h => hn (h ▸ List.mem_cons_self a as)
    have hocc' : occursIn exprClose (as ++ exprClose.dropLast) = false := by
      simp only [List.cons_append, occursIn, Bool.or_eq_false_iff] at hocc
      exact hocc.2
    have hstep := scanHead_append_clean close hclose as body rest
      (fun h => hn (List.mem_cons_of_mem a h)) hocc' hb
    show scanHead close (a :: (as ++ (exprClose ++ (body ++ (close ++ rest))))) = _
    simp only [List.cons_append] at hnotpre
    simp [scanHead, hnotpre, hn1, hstep]

theorem matchBlockAt_append_clean (openTag close : Str) (hclose : close ≠ [])
    (hd body rest : Str) (hn : '\n' ∉ hd)
    (h1 : occursIn exprClose (hd ++ exprClose.dropLast) = false)
    (h2 : occursIn close (body ++ close.dropLast) = false) :
    matchBlockAt openTag close (openTag ++ (hd ++ (exprClose ++ (body ++ (close ++ rest))))) =
      some (hd, body, rest) := by
  unfold matchBlockAt
  rw [isPre_append_self, if_pos rfl, drop_length_append]
  exact scanHead_append_clean close hclose hd body rest hn h1 h2

theorem findBlock_of_matchBlockAt {o c : Str} {s : Str} {r : Str × Str × Str}
    (h : matchBlockAt o c s = some r) : findBlock o c s = some ([], r.1, r.2.1, r.2.2) := by
  obtain ⟨hd, inner, rest⟩ := r
  cases s with
  | nil =>
    exfalso
    unfold matchBlockAt at h
    cases hp : isPre o ([] : Str) with
    | false => rw [hp] at h; simp at h
    | true => rw [hp] at h; simp [List.drop_nil, scanHead] at h
  | cons x xs =>
    unfold findBlock
    rw [h]

theorem findBlock_none {o c : Str} :
    ∀ {s : Str}, occursIn o s = false → findBlock o c s = none
  | [], _ => rfl
  | x :: xs, hocc => by
    simp only [occursIn, Bool.or_eq_false_iff] at hocc
    have hm : matchBlockAt o c (x :: xs) = none := by
      unfold matchBlockAt
      rw [hocc.1]
      simp
    unfold findBlock
    rw [hm, findBlock_none hocc.2]
    rfl

theorem splitBlocksF_none {o c : Str} {s : Str} (h : findBlock o c s = none) :
    ∀ fuel, splitBlocksF o c fuel s = ([], s)
  | 0 => rfl
  | fuel + 1 => by simp [splitBlocksF, h]

theorem splitBlocks_single {o c : Str} {s pre hd inner rest : Str}
    (h : findBlock o c s = some (pre, hd, inner, rest)) (h2 : findBlock o c rest = none) :
    splitBlocks o c s = ([(pre, hd, inner)], rest) := by
  have hs : s ≠ [] := by
    intro he
    subst he
    exact Option.noConfusion ((rfl : findBlock o c [] = none) ▸ h)
  unfold splitBlocks
  cases hl : s.length with
  | zero => exact absurd (List.length_eq_zero.mp hl) hs
  | succ n => simp [splitBlocksF, h, splitBlocksF_none h2]

theorem scanExprBody_append_clean :
    ∀ (e rest : Str), '\n' ∉ e →
      occursIn exprClose (e ++ exprClose.dropLast) = false →
      scanExprBody (e ++ (exprClose ++ rest)) = some (e, rest)
  | [], rest, _, _ => by
    show scanExprBody ('\x7d' :: ('\x7d' :: rest)) = some ([], rest)
    have hpre : isPre exprClose ('\x7d' :: ('\x7d' :: rest)) = true := by
      have := isPre_append_self exprClose rest
      rw [exprClose_eq] at this ⊢
      exact this
    simp [scanExprBody, hpre]
  | a :: as, rest, hn, hocc => by
    have hnotpre : isPre exprClose (a :: (as ++ (exprClose ++ rest))) = false := by
      by_contra hc
      have hc' : isPre exprClose (a :: (as ++ (exprClose ++ rest))) = true := by
        cases h : isPre exprClose (a :: (as ++ (exprClose ++ rest))) with
        | true => rfl
        | false => exact absurd h hc
      have hdecomp : a :: (as ++ (exprClose ++ rest)) =
          ((a :: as) ++ exprClose.dropLast) ++ ('\x7d' :: rest) := by
        rw [exprClose_eq]
        simp
      rw [hdecomp] at hc'
      have hlen : exprClose.length ≤ ((a :: as) ++ exprClose.dropLast).length := by
        rw [exprClose_eq]
        simp
      have := occursIn_of_isPre (isPre_of_append_left _ hc' hlen)
      rw [this] at hocc
      exact Bool.noConfusion hocc
    have hn1 : a ≠ '\n' := fun h => hn (h ▸ List.mem_cons_self a as)
    have hocc' : occursIn exprClose (as ++ exprClose.dropLast) = false := by
      simp only [List.cons_append, occursIn, Bool.or_eq_false_iff] at hocc
      exact hocc.2
    have hstep := scanExprBody_append_clean as rest (fun h => hn (List.mem_cons_of_mem a h)) hocc'
    show scanExprBody (a :: (as ++ (exprClose ++ rest))) = _
    simp [scanExprBody, hnotpre, hn1, hstep]

theorem matchRawAt_append_clean (e rest : Str) (hn : '\n' ∉ e)
    (h1 : occursIn exprClose (e ++ exprClose.dropLast) = false) :
    matchRawAt (exprOpen ++ (e ++ (exprClose ++ rest))) = some (e, rest) := by
  unfold matchRawAt
  rw [isPre_append_self, if_pos rfl]
  have hdrop : (exprOpen ++ (e ++ (exprClose ++ rest))).drop 2 = e ++ (exprClose ++ rest) := by
    rw [exprOpen_eq]
    rfl
  rw [hdrop]
  exact scanExprBody_append_clean e rest hn h1

theorem matchRawAt_nil : matchRawAt [] = none := rfl

theorem findRaw_of_matchRawAt {s : Str} {r : Str × Str}
    (h : matchRawAt s = some r) : findRaw s = some ([], r.1, r.2) := by
  obtain ⟨e, rest⟩ := r
  cases s with
  | nil => exact Option.noConfusion (matchRawAt_nil ▸ h)
  | cons x xs =>
    unfold findRaw
    rw [h]

theorem findRaw_none : ∀ {s : Str}, occursIn exprOpen s = false → findRaw s = none
  | [], _ => rfl
  | x :: xs, hocc => by
    simp only [occursIn, Bool.or_eq_false_iff] at hocc
    have hm : matchRawAt (x :: xs) = none := by
      unfold matchRawAt
      rw [hocc.1]
      simp
    unfold findRaw
    rw [hm, findRaw_none hocc.2]
    rfl

theorem splitRawsF_none {s : Str} (h : findRaw s = none) :
    ∀ fuel, splitRawsF fuel s = ([], s)
  | 0 => rfl
  | fuel + 1 => by simp [splitRawsF, h]

theorem splitRaws_single {s pre e rest : Str}
    (h : findRaw s = some (pre, e, rest)) (h2 : findRaw rest = none) :
    splitRaws s = ([(pre, e)], rest) := by
  have hs : s ≠ [] := by
    intro he
    subst he
    exact Option.noConfusion ((rfl : findRaw [] = none) ▸ h)
  unfold splitRaws
  cases hl : s.length with
  | zero => exact absurd (List.length_eq_zero.mp hl) hs
  | succ n => simp [splitRawsF, h, splitRawsF_none h2]

theorem stageIf_id (jsEval : JsEval) (helpers : Obj) (render : Str → Obj → Except String Str)
    (scope : Obj) {s : Str} (h : findBlock ifOpen ifClose s = none) :
    stageIf jsEval helpers render scope s = .ok s := by
  unfold stageIf splitBlocks
  rw [splitBlocksF_none h]
  simp [mapE, concatAll]

theorem stageEach_id (render : Str → Obj → Except String Str) (scope : Obj) {s : Str}
    (h : findBlock eachOpen eachClose s = none) :
    stageEach render scope s = .ok s := by
  unfold stageEach splitBlocks
  rw [splitBlocksF_none h]
  simp [mapE, concatAll]

theorem stageRaw_id (jsEval : JsEval) (helpers scope : Obj) {s : Str}
    (h : findRaw s = none) :
    stageRaw jsEval helpers scope s = s := by
  unfold stageRaw splitRaws
  rw [splitRawsF_none h]
  simp [concatAll]

theorem replaceAllMF_id {pat : Str} (f : Str → Except String Str) :
    ∀ (fuel : Nat) {s : Str}, occursIn pat s = false →
      replaceAllMF pat f fuel s = .ok s
  | 0, _, _ => rfl
  | fuel + 1, [], _ => rfl
  | fuel + 1, c :: cs, hocc => by
    simp only [occursIn, Bool.or_eq_false_iff] at hocc
    have hg : (!pat.isEmpty && isPre pat (c :: cs)) = false := by
      rw [hocc.1, Bool.and_false]
    unfold replaceAllMF
    rw [hg]
    simp only [Bool.false_eq_true, if_false]
    rw [replaceAllMF_id f fuel hocc.2]

theorem replaceAllM_id {pat : Str} (f : Str → Except String Str) {s : Str}
    (h : occursIn pat s = false) : replaceAllM pat f s = .ok s :=
  replaceAllMF_id f s.length h

theorem runHandlers_id : ∀ (handlers : List CustomHandler) (scope helpers : Obj) {s : Str},
    (∀ h ∈ handlers, occursIn h.pattern s = false) →
    runHandlers handlers scope helpers s = .ok s
  | [], _, _, _, _ => rfl
  | h :: hs, scope, helpers, s, hall => by
    unfold runHandlers
    rw [replaceAllM_id _ (hall h (List.mem_cons_self h hs))]
    exact runHandlers_id hs scope helpers
      (fun h' hm => hall h' (List.mem_cons_of_mem h hm))


theorem mapE_ok {f : α → Except String β} :
    ∀ {l : List α}, (∀ a ∈ l, ∃ b, f a = .ok b) → ∃ bs, mapE f l = .ok bs
  | [], _ => ⟨[], rfl⟩
  | a :: as, hall => by
    obtain ⟨b, hb⟩ := hall a (List.mem_cons_self a as)
    obtain ⟨bs, hbs⟩ := mapE_ok (fun x hm => hall x (List.mem_cons_of_mem a hm))
    exact ⟨b :: bs, by simp [mapE, hb, hbs]⟩

theorem replaceAllMF_ok (pat : Str) {f : Str → Except String Str}
    (hf : ∀ m, ∃ r, f m = .ok r) :
    ∀ (fuel : Nat) (s : Str), ∃ t, replaceAllMF pat f fuel s = .ok t
  | 0, s => ⟨s, rfl⟩
  | _ + 1, [] => ⟨[], rfl⟩
  | fuel + 1, c :: cs => by
    cases hg : (!pat.isEmpty && isPre pat (c :: cs)) with
    | true =>
      obtain ⟨r, hr⟩ := hf pat
      obtain ⟨t, ht⟩ := replaceAllMF_ok pat hf fuel ((c :: cs).drop pat.length)
      exact ⟨r ++ t, by unfold replaceAllMF; rw [hg]; simp [hr, ht]⟩
    | false =>
      obtain ⟨t, ht⟩ := replaceAllMF_ok pat hf fuel cs
      exact ⟨c :: t, by unfold replaceAllMF; rw [hg]; simp [ht]⟩

theorem runHandlers_ok :
    ∀ (handlers : List CustomHandler) (scope helpers : Obj) (s : Str),
      (∀ h ∈ handlers, ∀ m sc hp, ∃ out, h.handler m sc hp = .ok out) →
      ∃ t, runHandlers handlers scope helpers s = .ok t
  | [], _, _, s, _ => ⟨s, rfl⟩
  | h :: hs, scope, helpers, s, hall => by
    obtain ⟨s1, hs1⟩ : ∃ t, replaceAllM h.pattern (fun m => h.handler m scope helpers) s = .ok t :=
      replaceAllMF_ok h.pattern (fun m => hall h (List.mem_cons_self h hs) m scope helpers) s.length s
    obtain ⟨t, ht⟩ := runHandlers_ok hs scope helpers s1
      (fun h' hm => hall h' (List.mem_cons_of_mem h hm))
    exact ⟨t, by unfold runHandlers; rw [hs1]; exact ht⟩

theorem ifSegment_ok (jsEval : JsEval) (helpers : Obj) {render : Str → Obj → Except String Str}
    (scope : Obj) (seg : Str × Str × Str) (hrender : ∀ t sc, ∃ o, render t sc = .ok o) :
    ∃ o, ifSegment jsEval helpers render scope seg = .ok o := by
  unfold ifSegment
  cases htr : truthy (evaluateExpression jsEval (trimStr seg.2.1) scope helpers) with
  | true =>
    obtain ⟨o, ho⟩ := hrender (splitElse seg.2.2).1 scope
    exact ⟨seg.1 ++ o, by simp [htr, ho]⟩
  | false =>
    obtain ⟨o, ho⟩ := hrender (splitElse seg.2.2).2 scope
    exact ⟨seg.1 ++ o, by simp [htr, ho]⟩

theorem stageIf_ok (jsEval : JsEval) (helpers : Obj) {render : Str → Obj → Except String Str}
    (scope : Obj) (s : Str) (hrender : ∀ t sc, ∃ o, render t sc = .ok o) :
    ∃ o, stageIf jsEval helpers render scope s = .ok o := by
  obtain ⟨parts, hparts⟩ := mapE_ok (l := (splitBlocks ifOpen ifClose s).1)
    (fun seg _ => ifSegment_ok jsEval helpers scope seg hrender)
  exact ⟨concatAll parts ++ (splitBlocks ifOpen ifClose s).2, by unfold stageIf; rw [hparts]⟩

theorem eachSegment_ok {render : Str → Obj → Except String Str}
    (scope : Obj) (seg : Str × Str × Str) (hrender : ∀ t sc, ∃ o, render t sc = .ok o) :
    ∃ o, eachSegment render scope seg = .ok o := by
  unfold eachSegment
  cases hv : getValueByPath (Value.vObj scope) (trimStr seg.2.1) with
  | vArr xs =>
    obtain ⟨outs, houts⟩ := mapE_ok (l := xs)
      (f := fun item => render seg.2.2 (mergeObj scope (spreadVal item)))
      (fun item _ => hrender seg.2.2 (mergeObj scope (spreadVal item)))
    refine ⟨seg.1 ++ concatAll outs, ?_⟩
    show (match mapE (fun item => render seg.2.2 (mergeObj scope (spreadVal item))) xs with
      | Except.error e => Except.error e
      | Except.ok outs => Except.ok (seg.1 ++ concatAll outs)) =
        Except.ok (seg.1 ++ concatAll outs)
    rw [houts]
  | vUndefined => exact ⟨seg.1 ++ [], rfl⟩
  | vNull => exact ⟨seg.1 ++ [], rfl⟩
  | vBool b => exact ⟨seg.1 ++ [], rfl⟩
  | vNum n => exact ⟨seg.1 ++ [], rfl⟩
  | vNaN => exact ⟨seg.1 ++ [], rfl⟩
  | vStr t => exact ⟨seg.1 ++ [], rfl⟩
  | vObj fs => exact ⟨seg.1 ++ [], rfl⟩
  | vClosure n => exact ⟨seg.1 ++ [], rfl⟩

theorem stageEach_ok (render : Str → Obj → Except String Str) (scope : Obj) (s : Str)
    (hrender : ∀ t sc, ∃ o, render t sc = .ok o) :
    ∃ o, stageEach render scope s = .ok o := by
  obtain ⟨parts, hparts⟩ := mapE_ok (l := (splitBlocks eachOpen eachClose s).1)
    (fun seg _ => eachSegment_ok scope seg hrender)
  exact ⟨concatAll parts ++ (splitBlocks eachOpen eachClose s).2, by unfold stageEach; rw [hparts]⟩

theorem processTemplate_ok (jsEval : JsEval) (helpers : Obj) (handlers : List CustomHandler)
    (H : ∀ h ∈ handlers, ∀ m sc hp, ∃ out, h.handler m sc hp = .ok out) :
    ∀ (fuel : Nat) (tmpl : Str) (scope : Obj),
      ∃ out, processTemplate jsEval helpers handlers fuel tmpl scope = .ok out
  | 0, tmpl, _ => ⟨tmpl, rfl⟩
  | fuel + 1, tmpl, scope => by
    have hrender : ∀ t sc, ∃ o, processTemplate jsEval helpers handlers fuel t sc = .ok o :=
      fun t sc => processTemplate_ok jsEval helpers handlers H fuel t sc
    obtain ⟨s1, hs1⟩ := stageIf_ok jsEval helpers scope tmpl hrender
    obtain ⟨s2, hs2⟩ := stageEach_ok (processTemplate jsEval helpers handlers fuel) scope s1 hrender
    obtain ⟨s3, hs3⟩ := runHandlers_ok handlers scope helpers s2 H
    refine ⟨stageRaw jsEval helpers scope s3, ?_⟩
    unfold processTemplate
    rw [hs1]
    show (match stageEach (processTemplate jsEval helpers handlers fuel) scope s1 with
      | Except.error e => Except.error e
      | Except.ok s2 =>
        match runHandlers handlers scope helpers s2 with
        | Except.error e => Except.error e
        | Except.ok s3 => Except.ok (stageRaw jsEval helpers scope s3)) =
          Except.ok (stageRaw jsEval helpers scope s3)
    rw [hs2]
    show (match runHandlers handlers scope helpers s2 with
      | Except.error e => Except.error e
      | Except.ok s3 => Except.ok (stageRaw jsEval helpers scope s3)) =
        Except.ok (stageRaw jsEval helpers scope s3)
    rw [hs3]

theorem containsKey_of_lookup_some : ∀ {o : Obj} {k : Str} {v : Value},
    lookupObj o k = some v → containsKey o k = true
  | [], _, _, h => Option.noConfusion h
  | (k1, v1) :: rest, k, v, h => by
    by_cases hk : k1 = k
    · simp [containsKey, hk]
    · simp only [lookupObj, if_neg hk] at h
      simp [containsKey, hk, containsKey_of_lookup_some h]

theorem containsKey_false_of_lookup_none : ∀ {o : Obj} {k : Str},
    lookupObj o k = none → containsKey o k = false
  | [], _, _ => rfl
  | (k1, v1) :: rest, k, h => by
    by_cases hk : k1 = k
    · simp only [lookupObj, if_pos hk] at h
      exact Option.noConfusion h
    · simp only [lookupObj, if_neg hk] at h
      simp [containsKey, hk, containsKey_false_of_lookup_none h]

theorem lookupObj_dropKeysIn_of_contains {b : Obj} {k : Str} (hck : containsKey b k = true) :
    ∀ a : Obj, lookupObj (dropKeysIn b a) k = none
  | [] => rfl
  | (k1, v1) :: rest => by
    unfold dropKeysIn
    by_cases h1 : containsKey b k1 = true
    · rw [if_pos h1]
      exact lookupObj_dropKeysIn_of_contains hck rest
    · rw [if_neg h1]
      have hk1 : k1 ≠ k := by
        intro he
        subst he
        exact h1 hck
      simp only [lookupObj, if_neg hk1]
      exact lookupObj_dropKeysIn_of_contains hck rest

theorem lookupObj_dropKeysIn_of_not_contains {b : Obj} {k : Str}
    (hck : containsKey b k = false) :
    ∀ a : Obj, lookupObj (dropKeysIn b a) k = lookupObj a k
  | [] => rfl
  | (k1, v1) :: rest => by
    unfold dropKeysIn
    by_cases h1 : containsKey b k1 = true
    · rw [if_pos h1]
      have hk1 : k1 ≠ k := by
        intro he
        subst he
        rw [h1] at hck
        exact Bool.noConfusion hck
      rw [lookupObj_dropKeysIn_of_not_contains hck rest]
      show lookupObj rest k = lookupObj ((k1, v1) :: rest) k
      simp only [lookupObj, if_neg hk1]
    · rw [if_neg h1]
      show lookupObj ((k1, v1) :: dropKeysIn b rest) k = lookupObj ((k1, v1) :: rest) k
      by_cases hk1 : k1 = k
      · simp only [lookupObj, if_pos hk1]
      · simp only [lookupObj, if_neg hk1]
        exact lookupObj_dropKeysIn_of_not_contains hck rest

theorem lookupObj_append : ∀ (a b : Obj) (k : Str),
    lookupObj (a ++ b) k =
      match lookupObj a k with
      | some v => some v
      | none => lookupObj b k
  | [], _, _ => rfl
  | (k1, v1) :: rest, b, k => by
    rw [List.cons_append]
    by_cases hk : k1 = k
    · simp only [lookupObj, if_pos hk]
    · simp only [lookupObj, if_neg hk]
      exact lookupObj_append rest b k

theorem lookupObj_mergeObj (a b : Obj) (k : Str) :
    lookupObj (mergeObj a b) k =
      match lookupObj b k with
      | some v => some v
      | none => lookupObj a k := by
  unfold mergeObj
  rw [lookupObj_append]
  cases hb : lookupObj b k with
  | some v =>
    rw [lookupObj_dropKeysIn_of_contains (containsKey_of_lookup_some hb)]
  | none =>
    rw [lookupObj_dropKeysIn_of_not_contains (containsKey_false_of_lookup_none hb)]
    cases ha : lookupObj a k with
    | some v => rfl
    | none => simp [hb]

theorem dropKeysIn_nil : ∀ a : Obj, dropKeysIn [] a = a
  | [] => rfl
  | (k1, v1) :: rest => by
    unfold dropKeysIn
    rw [if_neg (by simp [containsKey])]
    rw [dropKeysIn_nil rest]

theorem mergeObj_nil_right (a : Obj) : mergeObj a [] = a := by
  unfold mergeObj
  rw [dropKeysIn_nil, List.append_nil]

theorem isPre_refl (s : Str) : isPre s s = true := by
  have := isPre_append_self s []
  rwa [List.append_nil] at this

theorem replaceAllMF_nil (pat : Str) (f : Str → Except String Str) :
    ∀ fuel, replaceAllMF pat f fuel [] = .ok []
  | 0 => rfl
  | _ + 1 => rfl

theorem replaceAllMF_exact {f : Str → Except String Str} {o : Str} (c : Char) (cs : Str)
    (hf : f (c :: cs) = .ok o) (fuel : Nat) :
    replaceAllMF (c :: cs) f (fuel + 1) (c :: cs) = .ok o := by
  unfold replaceAllMF
  simp [isPre_refl, hf, List.drop_length, replaceAllMF_nil]

theorem replaceAllM_self {pat : Str} {f : Str → Except String Str} {o : Str}
    (hne : pat ≠ []) (hf : f pat = .ok o) : replaceAllM pat f pat = .ok o := by
  obtain ⟨c, cs, hp⟩ : ∃ c cs, pat = c :: cs := by
    cases pat with
    | nil => exact absurd rfl hne
    | cons c cs => exact ⟨c, cs, rfl⟩
  subst hp
  unfold replaceAllM
  rw [List.length_cons]
  exact replaceAllMF_exact c cs hf cs.length

theorem splitBlocks_block (o close : Str) (hclose : close ≠ [])
    (hd body : Str) (hn : '\n' ∉ hd)
    (h1 : occursIn exprClose (hd ++ exprClose.dropLast) = false)
    (h2 : occursIn close (body ++ close.dropLast) = false) :
    splitBlocks o close (o ++ (hd ++ (exprClose ++ (body ++ close)))) = ([([], hd, body)], []) := by
  have hm := matchBlockAt_append_clean o close hclose hd body [] hn h1 h2
  rw [List.append_nil] at hm
  exact splitBlocks_single (findBlock_of_matchBlockAt hm) rfl

theorem splitRaws_block (e : Str) (hn : '\n' ∉ e)
    (h1 : occursIn exprClose (e ++ exprClose.dropLast) = false) :
    splitRaws (exprOpen ++ (e ++ exprClose)) = ([([], e)], []) := by
  have hm := matchRawAt_append_clean e [] hn h1
  rw [List.append_nil] at hm
  exact splitRaws_single (findRaw_of_matchRawAt hm) rfl

/-- C1: every render call applies exactly four stages in fixed order —
conditional resolution, then loop resolution, then the custom handlers in
registration order, then raw-expression substitution — each stage operating
on the output text of the previous stage, and the recursive rendering
performed inside the conditional and loop stages re-enters this same pipeline
(processTemplate at the next fuel level) with the scope those stages
establish. -/
theorem render_pipeline_four_stage_order (jsEval : JsEval) (helpers : Obj)
    (handlers : List CustomHandler) (fuel : Nat) (tmpl : Str) (scope : Obj) :
    processTemplate jsEval helpers handlers (fuel + 1) tmpl scope =
      match stageIf jsEval helpers (processTemplate jsEval helpers handlers fuel) scope tmpl with
      | .error e => .error e
      | .ok s1 =>
        match stageEach (processTemplate jsEval helpers handlers fuel) scope s1 with
        | .error e => .error e
        | .ok s2 =>
          match runHandlers handlers scope helpers s2 with
          | .error e => .error e
          | .ok s3 => .ok (stageRaw jsEval helpers scope s3) := rfl

/-- C7: evaluateExpression builds its flat binding set by spreading helpers
then scope, so a scope entry wins a name collision, and renderTemplate builds
the helper registry for the whole call by spreading the built-in helpers then
the caller helpers, so a caller entry overrides a built-in of the same
name. -/
theorem merge_order_scope_over_helpers_caller_over_builtin :
    (∀ (jsEval : JsEval) (e : Str) (sc hp : Obj),
      evaluateExpression jsEval e sc hp =
        match jsEval e (mergeObj hp sc) with
        | .ok v => v
        | .error _ => .vStr []) ∧
    (∀ (hp sc : Obj) (k : Str),
      lookupObj (mergeObj hp sc) k =
        match lookupObj sc k with
        | some v => some v
        | none => lookupObj hp k) ∧
    (∀ (jsEval : JsEval) (options : RenderOptions),
      renderTemplate jsEval options =
        processTemplate jsEval (mergeObj defaultHelpers options.helpers) options.handlers
          (options.template.length + 1) options.template options.data) ∧
    (∀ (hp : Obj) (k : Str),
      lookupObj (mergeObj defaultHelpers hp) k =
        match lookupObj hp k with
        | some v => some v
        | none => lookupObj defaultHelpers k) :=
  ⟨fun _ _ _ _ => rfl, fun hp sc k => lookupObj_mergeObj hp sc k, fun _ _ => rfl,
   fun hp k => lookupObj_mergeObj defaultHelpers hp k⟩

/-- C2 counterexample: a caller-supplied custom handler that raises makes
renderTemplate raise — the handler dispatch is not wrapped in any recovery,
so the render does not return a string and the failure is not degraded to an
empty substitution. -/
theorem renderTemplate_handler_exception_escapes :
    renderTemplate sampleJsEval
      ⟨str "X", [], [], [⟨str "X", fun _ _ _ => .error "boom"⟩]⟩ = .error "boom" := rfl

/-- C2 amended: for every render request whose custom-handler resolvers
always return normally, renderTemplate returns a string (never raises), and
every host-evaluation failure inside an expression degrades to the empty
string substitution; an exception raised by a custom handler, however,
propagates to the caller (see the counterexample). -/
theorem renderTemplate_total_of_handlers_total (jsEval : JsEval) (options : RenderOptions)
    (H : ∀ h ∈ options.handlers, ∀ m sc hp, ∃ out, h.handler m sc hp = .ok out) :
    (∃ out, renderTemplate jsEval options = .ok out) ∧
    (∀ (e : Str) (sc hp : Obj) (err : String),
      jsEval e (mergeObj hp sc) = .error err →
      evaluateExpression jsEval e sc hp = .vStr []) := by
  constructor
  · exact processTemplate_ok jsEval (mergeObj defaultHelpers options.helpers) options.handlers H
      (options.template.length + 1) options.template options.data
  · intro e sc hp err herr
    unfold evaluateExpression
    rw [herr]

/-- C2 witness: the amended theorem applied to a concrete request with no
handlers and to a concrete failing evaluation. -/
theorem renderTemplate_total_witness :
    (∃ out, renderTemplate sampleJsEval ⟨str "hi there", [], [], []⟩ = .ok out) ∧
    evaluateExpression sampleJsEval (str "#if b") [] [] = .vStr [] := by
  have h := renderTemplate_total_of_handlers_total sampleJsEval ⟨str "hi there", [], [], []⟩
    (by intro h hm; exact absurd hm (List.not_mem_nil h))
  exact ⟨h.1, h.2 (str "#if b") [] [] "SyntaxError" rfl⟩

theorem processTemplate_eq (jsEval : JsEval) (helpers : Obj) (handlers : List CustomHandler)
    (fuel : Nat) (tmpl : Str) (scope : Obj) {s1 s2 s3 : Str}
    (h1 : stageIf jsEval helpers (processTemplate jsEval helpers handlers fuel) scope tmpl = .ok s1)
    (h2 : stageEach (processTemplate jsEval helpers handlers fuel) scope s1 = .ok s2)
    (h3 : runHandlers handlers scope helpers s2 = .ok s3) :
    processTemplate jsEval helpers handlers (fuel + 1) tmpl scope =
      .ok (stageRaw jsEval helpers scope s3) := by
  unfold processTemplate
  rw [h1]
  show (match stageEach (processTemplate jsEval helpers handlers fuel) scope s1 with
    | Except.error e => Except.error e
    | Except.ok s2 =>
      match runHandlers handlers scope helpers s2 with
      | Except.error e => Except.error e
      | Except.ok s3 => Except.ok (stageRaw jsEval helpers scope s3)) =
        Except.ok (stageRaw jsEval helpers scope s3)
  rw [h2]
  show (match runHandlers handlers scope helpers s2 with
    | Except.error e => Except.error e
    | Except.ok s3 => Except.ok (stageRaw jsEval helpers scope s3)) =
      Except.ok (stageRaw jsEval helpers scope s3)
  rw [h3]

/-- C6 counterexample: spreading a number element over the scope adds no
binding at all — the child scope is exactly the parent scope — so the raw
element value of a non-object each element is not exposed under any implicit
name and the body cannot address it (the probe of the common implicit name
renders as empty text). -/
theorem primitive_element_not_exposed_cx :
    mergeObj [(str "nums", Value.vArr [Value.vNum 5])] (spreadVal (Value.vNum 5)) =
      [(str "nums", Value.vArr [Value.vNum 5])] ∧
    renderTemplate sampleJsEval
      ⟨str "\x7b\x7b#each nums\x7d\x7d<\x7b\x7b item \x7d\x7d>\x7b\x7b/each\x7d\x7d",
       [(str "nums", Value.vArr [Value.vNum 5])], [], []⟩ = .ok (str "<>") := ⟨rfl, rfl⟩

/-- C6 amended: for every each iteration whose element is not an object,
array or string, the spread of the element contributes nothing: the child
scope built by the loop stage equals the parent scope, and the raw element
value is not addressable in the body under any name. -/
theorem primitive_element_adds_no_binding :
    (∀ (scope : Obj) (n : Int), mergeObj scope (spreadVal (Value.vNum n)) = scope) ∧
    (∀ (scope : Obj) (b : Bool), mergeObj scope (spreadVal (Value.vBool b)) = scope) ∧
    (∀ scope : Obj, mergeObj scope (spreadVal Value.vNull) = scope) ∧
    (∀ scope : Obj, mergeObj scope (spreadVal Value.vUndefined) = scope) ∧
    (∀ scope : Obj, mergeObj scope (spreadVal Value.vNaN) = scope) ∧
    (∀ (scope : Obj) (n : Nat), mergeObj scope (spreadVal (Value.vClosure n)) = scope) :=
  ⟨fun s _ => mergeObj_nil_right s, fun s _ => mergeObj_nil_right s,
   fun s => mergeObj_nil_right s, fun s => mergeObj_nil_right s,
   fun s => mergeObj_nil_right s, fun s _ => mergeObj_nil_right s⟩

/-- C3 counterexample: on a nested conditional the non-greedy scan pairs the
outer start tag with the nearest close tag, which is the inner block's close
tag — the extracted inner text still contains the dangling inner start tag
and the remainder still contains the unmatched outer close tag — and with the
inner condition false the full render keeps the inner branch text B, giving
ABC where matching-pair semantics would give AC. -/
theorem nested_if_nearest_close_cx :
    matchBlockAt ifOpen ifClose
        (str "\x7b\x7b#if a\x7d\x7dA\x7b\x7b#if b\x7d\x7dB\x7b\x7b/if\x7d\x7dC\x7b\x7b/if\x7d\x7d") =
      some (str "a", str "A\x7b\x7b#if b\x7d\x7dB", str "C\x7b\x7b/if\x7d\x7d") ∧
    renderTemplate sampleJsEval
      ⟨str "\x7b\x7b#if a\x7d\x7dA\x7b\x7b#if b\x7d\x7dB\x7b\x7b/if\x7d\x7dC\x7b\x7b/if\x7d\x7d",
       [(str "a", Value.vBool true), (str "b", Value.vBool false)], [], []⟩ = .ok (str "ABC") ∧
    str "ABC" ≠ str "AC" := ⟨rfl, rfl, by decide⟩

/-- C3 amended: the conditional scan pairs a start tag with the nearest
following close tag (non-greedy) — so nested if blocks are mis-paired — and
then recursively renders, with the same scope, the branch of the extracted
body selected by the truthiness of the evaluated condition; the recursion
supports nested loops and expressions inside the selected branch but not
nested conditionals. -/
theorem if_scan_nearest_close_and_recurses (jsEval : JsEval) (helpers : Obj)
    (handlers : List CustomHandler) (fuel : Nat) (scope : Obj) (cond body : Str)
    (hn : '\n' ∉ cond)
    (h1 : occursIn exprClose (cond ++ exprClose.dropLast) = false)
    (h2 : occursIn ifClose (body ++ ifClose.dropLast) = false) :
    (∀ rest : Str,
      matchBlockAt ifOpen ifClose
          (ifOpen ++ (cond ++ (exprClose ++ (body ++ (ifClose ++ rest))))) =
        some (cond, body, rest)) ∧
    stageIf jsEval helpers (processTemplate jsEval helpers handlers fuel) scope
        (ifOpen ++ (cond ++ (exprClose ++ (body ++ ifClose)))) =
      (if truthy (evaluateExpression jsEval (trimStr cond) scope helpers)
       then processTemplate jsEval helpers handlers fuel (splitElse body).1 scope
       else processTemplate jsEval helpers handlers fuel (splitElse body).2 scope) := by
  have hifclose : ifClose ≠ [] := by decide
  constructor
  · intro rest
    exact matchBlockAt_append_clean ifOpen ifClose hifclose cond body rest hn h1 h2
  · have hsb := splitBlocks_block ifOpen ifClose hifclose cond body hn h1 h2
    unfold stageIf
    rw [hsb]
    cases htr : truthy (evaluateExpression jsEval (trimStr cond) scope helpers) with
    | true =>
      cases hr : processTemplate jsEval helpers handlers fuel (splitElse body).1 scope with
      | error e => simp [mapE, ifSegment, htr, hr]
      | ok out => simp [mapE, ifSegment, htr, hr, concatAll]
    | false =>
      cases hr : processTemplate jsEval helpers handlers fuel (splitElse body).2 scope with
      | error e => simp [mapE, ifSegment, htr, hr]
      | ok out => simp [mapE, ifSegment, htr, hr, concatAll]

/-- C3 witness: the amended theorem applied to a concrete single if block
with a false condition selects and renders the else branch. -/
theorem if_scan_witness :
    stageIf sampleJsEval [] (processTemplate sampleJsEval [] [] 1) [(str "c", Value.vBool false)]
        (ifOpen ++ (str "c" ++ (exprClose ++ ((str "T\x7b\x7belse\x7d\x7dF") ++ ifClose)))) =
      .ok (str "F") := by
  have h := if_scan_nearest_close_and_recurses sampleJsEval [] [] 1 [(str "c", Value.vBool false)]
    (str "c") (str "T\x7b\x7belse\x7d\x7dF") (by decide) (by decide) (by decide)
  rw [h.2]
  rfl

/-- C5: an each block whose trimmed path resolves to a non-array renders as
empty text, and one whose path resolves to an array of length N renders as
the concatenation, in original element order with no separator, of exactly N
recursive renderings of the body, each against the child scope spreading the
element over the current scope (element fields shadowing same-named parent
fields, by the merge of C7); an empty array yields empty text as the N = 0
instance. -/
theorem each_block_concatenates_renderings (jsEval : JsEval) (helpers : Obj)
    (handlers : List CustomHandler) (fuel : Nat) (scope : Obj) (p body : Str)
    (hn : '\n' ∉ p)
    (h1 : occursIn exprClose (p ++ exprClose.dropLast) = false)
    (ht : trimStr p = p)
    (h2 : occursIn eachClose (body ++ eachClose.dropLast) = false) :
    stageEach (processTemplate jsEval helpers handlers fuel) scope
        (eachOpen ++ (p ++ (exprClose ++ (body ++ eachClose)))) =
      match getValueByPath (Value.vObj scope) p with
      | .vArr xs =>
        (match mapE (fun item => processTemplate jsEval helpers handlers fuel body
            (mergeObj scope (spreadVal item))) xs with
         | .error e => .error e
         | .ok outs => .ok (concatAll outs))
      | _ => .ok [] := by
  have hec : eachClose ≠ [] := by decide
  have hsb := splitBlocks_block eachOpen eachClose hec p body hn h1 h2
  unfold stageEach
  rw [hsb]
  cases hv : getValueByPath (Value.vObj scope) p with
  | vArr xs =>
    cases hm : mapE (fun item => processTemplate jsEval helpers handlers fuel body
        (mergeObj scope (spreadVal item))) xs with
    | error e => simp [mapE, eachSegment, ht, hv, hm]
    | ok outs => simp [mapE, eachSegment, ht, hv, hm, concatAll]
  | vUndefined => simp [mapE, eachSegment, ht, hv, concatAll]
  | vNull => simp [mapE, eachSegment, ht, hv, concatAll]
  | vBool b => simp [mapE, eachSegment, ht, hv, concatAll]
  | vNum n => simp [mapE, eachSegment, ht, hv, concatAll]
  | vNaN => simp [mapE, eachSegment, ht, hv, concatAll]
  | vStr t => simp [mapE, eachSegment, ht, hv, concatAll]
  | vObj fs => simp [mapE, eachSegment, ht, hv, concatAll]
  | vClosure n => simp [mapE, eachSegment, ht, hv, concatAll]

/-- C5 witness: the theorem applied to a concrete one-element loop. -/
theorem each_block_witness :
    stageEach (processTemplate sampleJsEval [] [] 1)
        [(str "items", Value.vArr [Value.vObj [(str "v", Value.vNum 7)]])]
        (eachOpen ++ (str "items" ++ (exprClose ++ (str "x" ++ eachClose)))) = .ok (str "x") := by
  have h := each_block_concatenates_renderings sampleJsEval [] [] 1
    [(str "items", Value.vArr [Value.vObj [(str "v", Value.vNum 7)]])] (str "items") (str "x")
    (by decide) (by decide) (by decide) (by decide)
  rw [h]
  rfl

/-- A concrete resolver used by the C4 counterexample and witness: it renders
the value bound to the name v in whatever scope the dispatcher hands it. -/
def demoResolver : Str → Obj → Obj → Except String Str :=
  fun _ sc _ => .ok (toText ((lookupObj sc (str "v")).getD Value.vUndefined))

/-- C4 counterexample: a handler whose match lies inside a loop body is
invoked with the per-iteration child scope, not the original top-level scope:
with v bound to 0 at top level and to 1 in the iterated element, the resolver
renders 1. -/
theorem handler_sees_iteration_scope_cx :
    renderTemplate sampleJsEval
      ⟨str "\x7b\x7b#each items\x7d\x7dX\x7b\x7b/each\x7d\x7d",
       [(str "items", Value.vArr [Value.vObj [(str "v", Value.vNum 1)]]), (str "v", Value.vNum 0)],
       [], [⟨str "X", demoResolver⟩]⟩ = .ok (str "1") ∧
    str "1" ≠ str "0" := ⟨rfl, by decide⟩

/-- C4 amended: a custom handler is invoked with the scope of the pipeline
invocation in which its match is rewritten, together with the helper registry
of the call: for a match inside a loop body that is the per-iteration child
scope, because handlers run inside the recursive rendering of the body — here
the whole render reduces to the resolver output for the child scope. -/
theorem handler_receives_current_scope (jsEval : JsEval) (helpers scope : Obj) (fuel : Nat)
    (p pat o : Str) (f : Str → Obj → Obj → Except String Str) (item : Value)
    (hn : '\n' ∉ p)
    (h1 : occursIn exprClose (p ++ exprClose.dropLast) = false)
    (ht : trimStr p = p)
    (h2 : occursIn eachClose (pat ++ eachClose.dropLast) = false)
    (hpne : pat ≠ [])
    (harr : getValueByPath (Value.vObj scope) p = Value.vArr [item])
    (hf : f pat (mergeObj scope (spreadVal item)) helpers = .ok o)
    (hT1 : findBlock ifOpen ifClose (eachOpen ++ (p ++ (exprClose ++ (pat ++ eachClose)))) = none)
    (hp1 : findBlock ifOpen ifClose pat = none)
    (hp2 : findBlock eachOpen eachClose pat = none)
    (ho1 : findRaw o = none)
    (ho2 : occursIn pat o = false) :
    processTemplate jsEval helpers [⟨pat, f⟩] (fuel + 2)
        (eachOpen ++ (p ++ (exprClose ++ (pat ++ eachClose)))) scope = .ok o := by
  have hchild : processTemplate jsEval helpers [⟨pat, f⟩] (fuel + 1) pat
      (mergeObj scope (spreadVal item)) = .ok o := by
    have hs1 := stageIf_id jsEval helpers (processTemplate jsEval helpers [⟨pat, f⟩] fuel)
      (mergeObj scope (spreadVal item)) hp1
    have hs2 := stageEach_id (processTemplate jsEval helpers [⟨pat, f⟩] fuel)
      (mergeObj scope (spreadVal item)) hp2
    have hs3 : runHandlers [⟨pat, f⟩] (mergeObj scope (spreadVal item)) helpers pat = .ok o := by
      unfold runHandlers
      rw [replaceAllM_self hpne hf]
      rfl
    have heq := processTemplate_eq jsEval helpers [⟨pat, f⟩] fuel pat
      (mergeObj scope (spreadVal item)) hs1 hs2 hs3
    rw [stageRaw_id jsEval helpers (mergeObj scope (spreadVal item)) ho1] at heq
    exact heq
  have hec : eachClose ≠ [] := by decide
  have hsb := splitBlocks_block eachOpen eachClose hec p pat hn h1 h2
  have hstage2 : stageEach (processTemplate jsEval helpers [⟨pat, f⟩] (fuel + 1)) scope
      (eachOpen ++ (p ++ (exprClose ++ (pat ++ eachClose)))) = .ok o := by
    unfold stageEach
    rw [hsb]
    simp [mapE, eachSegment, ht, harr, hchild, concatAll]
  have hstage1 := stageIf_id jsEval helpers (processTemplate jsEval helpers [⟨pat, f⟩] (fuel + 1))
    scope hT1
  have hstage3 : runHandlers [⟨pat, f⟩] scope helpers o = .ok o := by
    unfold runHandlers
    rw [replaceAllM_id (fun m => f m scope helpers) ho2]
    rfl
  have heq := processTemplate_eq jsEval helpers [⟨pat, f⟩] (fuel + 1)
    (eachOpen ++ (p ++ (exprClose ++ (pat ++ eachClose)))) scope hstage1 hstage2 hstage3
  rw [stageRaw_id jsEval helpers scope ho1] at heq
  exact heq

/-- C4 witness: the amended theorem applied to the concrete loop of the
counterexample — the resolver receives the child scope where v is 1. -/
theorem handler_receives_current_scope_witness :
    processTemplate sampleJsEval [] [⟨str "X", demoResolver⟩] 2
        (eachOpen ++ (str "items" ++ (exprClose ++ (str "X" ++ eachClose))))
        [(str "items", Value.vArr [Value.vObj [(str "v", Value.vNum 1)]]), (str "v", Value.vNum 0)] =
      .ok (str "1") := by
  exact handler_receives_current_scope sampleJsEval [] _ 0 (str "items") (str "X") (str "1")
    demoResolver (Value.vObj [(str "v", Value.vNum 1)])
    (by decide) (by decide) (by decide) (by decide) (by decide)
    rfl rfl rfl rfl rfl rfl (by decide)

/-- C9: for every template with no directive occurrence — no if-block match,
no each-block match, no raw-expression match, and no handler-pattern
occurrence — the pipeline returns the input unchanged, renderTemplate returns
the input template unchanged, and consequently rendering the directive-free
output of a previous render a second time returns the same text. -/
theorem directive_free_identity_and_idempotence (jsEval : JsEval) (helpers : Obj)
    (handlers : List CustomHandler) (tmpl : Str)
    (hfree : directiveFree handlers tmpl) :
    (∀ (fuel : Nat) (scope : Obj),
      processTemplate jsEval helpers handlers fuel tmpl scope = .ok tmpl) ∧
    (∀ options : RenderOptions, options.template = tmpl → options.handlers = handlers →
      renderTemplate jsEval options = .ok tmpl) ∧
    (∀ prev options : RenderOptions, renderTemplate jsEval prev = .ok tmpl →
      options.template = tmpl → options.handlers = handlers →
      renderTemplate jsEval options = .ok tmpl) := by
  obtain ⟨h1, h2, h3, h4⟩ := hfree
  have hmain : ∀ (hp : Obj) (fuel : Nat) (scope : Obj),
      processTemplate jsEval hp handlers fuel tmpl scope = .ok tmpl := by
    intro hp fuel scope
    cases fuel with
    | zero => rfl
    | succ n =>
      have hs1 := stageIf_id jsEval hp (processTemplate jsEval hp handlers n) scope h1
      have hs2 := stageEach_id (processTemplate jsEval hp handlers n) scope h2
      have hs3 := runHandlers_id handlers scope hp h4
      have heq := processTemplate_eq jsEval hp handlers n tmpl scope hs1 hs2 hs3
      rw [stageRaw_id jsEval hp scope h3] at heq
      exact heq
  have hsecond : ∀ options : RenderOptions, options.template = tmpl →
      options.handlers = handlers → renderTemplate jsEval options = .ok tmpl := by
    intro options hT hH
    unfold renderTemplate
    rw [hT, hH]
    exact hmain (mergeObj defaultHelpers options.helpers) (tmpl.length + 1) options.data
  exact ⟨hmain helpers, hsecond, fun _ options _ hT hH => hsecond options hT hH⟩

/-- A passthrough resolver used by the C9 witness: its pattern does not occur
in the witness template. -/
def demoPassthrough : Str → Obj → Obj → Except String Str := fun m _ _ => .ok m

/-- C9 witness: a directive-free template renders to itself even with a
registered handler whose pattern does not occur. -/
theorem directive_free_witness :
    renderTemplate sampleJsEval
      ⟨str "plain text", [], [], [⟨str "Z", demoPassthrough⟩]⟩ = .ok (str "plain text") := by
  have h := directive_free_identity_and_idempotence sampleJsEval []
    [⟨str "Z", demoPassthrough⟩] (str "plain text")
    (by
      refine ⟨rfl, rfl, rfl, ?_⟩
      intro h hm
      rw [List.mem_singleton] at hm
      subst hm
      rfl)
  exact h.2.1 ⟨str "plain text", [], [], [⟨str "Z", demoPassthrough⟩]⟩ rfl rfl

/-- C10: in the raw-expression pass, a delimited expression whose evaluation
yields null or undefined is replaced by empty text, while an evaluation
yielding any other value — including the falsy values false, 0 and NaN — is
replaced by that value's text form. -/
theorem raw_pass_nullish_empty_falsy_text (jsEval : JsEval) (helpers scope : Obj)
    (e : Str) (v : Value) (hn : '\n' ∉ e)
    (h1 : occursIn exprClose (e ++ exprClose.dropLast) = false)
    (hv : jsEval (trimStr e) (mergeObj helpers scope) = .ok v) :
    stageRaw jsEval helpers scope (exprOpen ++ (e ++ exprClose)) = coerceReplacement v ∧
    coerceReplacement Value.vNull = [] ∧
    coerceReplacement Value.vUndefined = [] ∧
    coerceReplacement (Value.vBool false) = str "false" ∧
    coerceReplacement (Value.vNum 0) = str "0" ∧
    coerceReplacement Value.vNaN = str "NaN" := by
  refine ⟨?_, rfl, rfl, rfl, rfl, rfl⟩
  unfold stageRaw
  rw [splitRaws_block e hn h1]
  simp [rawSegment, concatAll, evaluateExpression, hv]

/-- C10 witness: the theorem applied to a concrete expression evaluating to
false renders the text false, not empty text. -/
theorem raw_pass_witness :
    stageRaw sampleJsEval [] [(str "x", Value.vBool false)]
      (exprOpen ++ (str " x " ++ exprClose)) = str "false" := by
  have h := raw_pass_nullish_empty_falsy_text sampleJsEval [] [(str "x", Value.vBool false)]
    (str " x ") (Value.vBool false) (by decide) (by decide) rfl
  rw [h.1]
  rfl
